import Mathlib

/- Shallow embedding of the event-log pipeline of arris_scraper/fetch.py:
   the Event data model, timestamp repair (fix_timestamp), snapshot delta
   matching (logs_match / find_new_entries), snapshot persistence
   (save_snapshot) and the event-path driver (get_events). -/

/-- An event-log entry (the Event dataclass in fetch.py). The timestamp is a
UTC instant in whole seconds since the Unix epoch; dataclass equality is
structural over all four fields. -/
structure Event where
  timestamp : Int
  event_id : Int
  level : Int
  description : String
  deriving DecidableEq

/-- The check `ts.year != 1970` of fix_timestamp, under the
seconds-since-epoch representation of UTC instants: the UTC year is 1970
exactly when the instant lies in [0, 31536000) (1970 has 365 days). -/
def isEpoch (e : Event) : Bool :=
  decide (0 ≤ e.timestamp ∧ e.timestamp < 31536000)

/-- Python slice `xs[-k:]` for a natural k. `xs[-0:]` is `xs[0:]`, the whole
list; for k greater than the length the whole list is also returned (matched
in Lean by truncating natural subtraction). -/
def pySliceFromNeg (xs : List Event) (k : Nat) : List Event :=
  if k = 0 then xs else xs.drop (xs.length - k)

/-- The value logs_match returns: a Python int index (`i + window`), the
string "no_change", Python None (loop ended without a match), or Python
False (the `len(eventsB) < window` early return). -/
inductive MatchResult where
  | idx (i : Nat)
  | noChange
  | pyNone
  | pyFalse
  deriving DecidableEq

/-- The scan loop of logs_match. `rem` is the suffix `eventsB[i:]`; each
step compares the window `eventsB[i:i+window]` (= `rem.take window`)
against `target` (= `eventsA[-window:]`). A suffix shorter than the window
means the loop range is exhausted (Python returns None). -/
def logsMatchScan (target : List Event) (window : Nat) : Nat → List Event → MatchResult
  | i, [] =>
    if ([] : List Event).length < window then .pyNone
    else if ([] : List Event).take window = target then
      if ([] : List Event).length = window then .noChange else .idx (i + window)
    else .pyNone
  | i, e :: rest =>
    if (e :: rest).length < window then .pyNone
    else if (e :: rest).take window = target then
      if (e :: rest).length = window then .noChange else .idx (i + window)
    else logsMatchScan target window (i + 1) rest

/-- logs_match from fetch.py: returns False when the fetched log is shorter
than the window, "no_change" when the first matching window ends exactly at
the end of eventsB, the index after the first matching window otherwise,
and None when no window of eventsB equals `eventsA[-window:]`. -/
def logs_match (eventsA eventsB : List Event) (window : Nat) : MatchResult :=
  if eventsB.length < window then .pyFalse
  else logsMatchScan (pySliceFromNeg eventsA window) window 0 eventsB

/-- find_new_entries from fetch.py. The Python code checks
`match_index == "no_change"`, then `match_index is None`, and otherwise
slices `events[match_index:]`; when logs_match returned False the slice is
`events[False:]`, and Python's False is the integer 0, so the whole fetched
log comes back. -/
def find_new_entries (events snapshot : List Event) : List Event :=
  match logs_match snapshot events (min 5 snapshot.length) with
  | .noChange => []
  | .pyNone => events
  | .pyFalse => events.drop 0
  | .idx i => events.drop i

/-- save_snapshot from fetch.py, with the file write reified as the returned
list: `events[-size:] if len(events) >= size else events`. -/
def save_snapshot (events : List Event) (size : Nat) : List Event :=
  if size ≤ events.length then pySliceFromNeg events size else events

/-- The successive time deltas between consecutive entries of an invalid
group (`deltas` in fix_timestamp): n − 1 differences for n entries. -/
def deltasOf (group : List Event) : List Int :=
  (group.zip group.tail).map (fun p => p.2.timestamp - p.1.timestamp)

/-- The reconstruction loop of fix_timestamp: walk forward from the current
time, adding each already-computed delta in turn and reassigning the
timestamp of the corresponding group entry. -/
def walkRest : Int → List (Event × Int) → List Event
  | _, [] => []
  | cur, (e, d) :: rest =>
    { e with timestamp := cur + d } :: walkRest (cur + d) rest

/-- The repair step fix_timestamp applies to a non-empty invalid group when
a valid entry with timestamp `t` follows it: sum the deltas, anchor the
group's end at `t − 1s`, derive the start by subtracting the total, and
reassign timestamps walking forward through the deltas. -/
def repairGroup : List Event → Int → List Event
  | [], _ => []
  | g0 :: rest, t =>
    let deltas := deltasOf (g0 :: rest)
    let totalDelta := deltas.sum
    let firstTime := t - 1 - totalDelta
    { g0 with timestamp := firstTime } :: walkRest firstTime (rest.zip deltas)

/-- The scan of fix_timestamp: accumulate a run of consecutive epoch
entries in `group`; on a valid entry, repair the pending group, emit it in
place, and clear it. Returns the list as left by the scan (without the
still-pending trailing group) together with that trailing group. -/
def fixGo : List Event → List Event → List Event × List Event
  | group, [] => ([], group)
  | group, e :: rest =>
    if isEpoch e then fixGo (group ++ [e]) rest
    else
      let r := fixGo [] rest
      (repairGroup group e.timestamp ++ e :: r.1, r.2)

/-- The final loop of fix_timestamp, `for ev in invalid_group:
events.remove(ev)`: Python list.remove deletes the first element that
compares equal (dataclass structural equality), which List.erase models. -/
def removeAll : List Event → List Event → List Event
  | xs, [] => xs
  | xs, g :: gs => removeAll (xs.erase g) gs

/-- fix_timestamp from fetch.py as a pure transformation. After the scan
the in-place list consists of the scanned output followed by the pending
trailing invalid group (its entries still unrepaied at the end of the
list); then each trailing-group member is removed via list.remove. -/
def fix_timestamp (events : List Event) : List Event :=
  let r := fixGo [] events
  removeAll (r.1 ++ r.2) r.2

/-- get_events from fetch.py, with effects reified: `parsed` is the result
of parsing the event table (None when the table is absent), `prevSnapshot`
the snapshot loaded from disk, and the second component of the result is
the snapshot written (none when no write happens). The Python guard is
`if events:`, which is falsy for None and for the empty list. -/
def get_events (parsed : Option (List Event)) (prevSnapshot : List Event)
    (delta : Bool) : List Event × Option (List Event) :=
  match parsed with
  | some events =>
    if events.isEmpty then ([], none)
    else if delta then
      (find_new_entries events prevSnapshot, some (save_snapshot events 20))
    else
      (events, some (save_snapshot events 20))
  | none => ([], none)

/-- Shift an event's timestamp by a constant (what the repair of a single
invalid group amounts to: the whole group is translated so that its last
entry lands one second before the following valid entry). -/
def shiftTs (c : Int) (e : Event) : Event :=
  { e with timestamp := e.timestamp + c }

/- Concrete events used by witnesses and counterexamples. -/

/-- A concrete event with a valid (non-1970) timestamp. -/
def evA : Event := ⟨40000001, 1, 3, "a"⟩

/-- A concrete event with a valid (non-1970) timestamp. -/
def evB : Event := ⟨40000002, 2, 3, "b"⟩

/-- A concrete event with a valid (non-1970) timestamp. -/
def evC : Event := ⟨40000003, 3, 3, "c"⟩

/-- A concrete event with a valid (non-1970) timestamp. -/
def evD : Event := ⟨40000004, 4, 3, "d"⟩

/-- A concrete event with a valid (non-1970) timestamp. -/
def evE : Event := ⟨40000005, 5, 3, "e"⟩

/-- A concrete epoch-1970 event. -/
def evG1 : Event := ⟨0, 10, 4, "boot1"⟩

/-- A concrete epoch-1970 event. -/
def evG2 : Event := ⟨25, 11, 4, "boot2"⟩

/-- A concrete valid event used as the anchor following an invalid group. -/
def evV : Event := ⟨1000000000, 12, 3, "sync"⟩

example : find_new_entries [evA, evB, evC, evD, evE] [evA, evB, evC] = [evD, evE] := by decide

example : find_new_entries [evA, evB, evC] [evA, evB, evC] = [] := by decide

example : find_new_entries [evD, evE] [evA, evB, evC] = [evD, evE] := by decide

example : fix_timestamp [evG1, evG2, evV] =
    [⟨999999974, 10, 4, "boot1"⟩, ⟨999999999, 11, 4, "boot2"⟩, evV] := by decide

/- Helper lemmas about the scan loop of logs_match. -/

/-- For a positive window, `eventsA[-window:]` is the last `window` entries. -/
lemma pySliceFromNeg_ne_zero (xs : List Event) (k : Nat) (hk : k ≠ 0) :
    pySliceFromNeg xs k = xs.drop (xs.length - k) := by
  unfold pySliceFromNeg
  rw [if_neg hk]

/-- If no window of the remaining suffix equals the target, the scan loop
ends without a match and logs_match reports Python None. -/
lemma logsMatchScan_none (target : List Event) (w : Nat) :
    ∀ (rem : List Event) (i : Nat),
      (∀ j, j + w ≤ rem.length → (rem.drop j).take w ≠ target) →
      logsMatchScan target w i rem = .pyNone := by
  intro rem
  induction rem with
  | nil =>
    intro i h
    cases w with
    | zero =>
      have ht : ¬ (([] : List Event) = target) := by
        have h0 := h 0 (by simp)
        simpa using h0
      simp [logsMatchScan, ht]
    | succ n =>
      simp [logsMatchScan]
  | cons e rest ih =>
    intro i h
    by_cases hlen : (e :: rest).length < w
    · rw [logsMatchScan, if_pos hlen]
    · have h0 : ¬ ((e :: rest).take w = target) := by
        have := h 0 (by omega)
        simpa using this
      rw [logsMatchScan, if_neg hlen, if_neg h0]
      exact ih (i + 1) (by
        intro j hj
        have := h (j + 1) (by simp only [List.length_cons]; omega)
        simpa [List.drop_succ_cons] using this)

/-- If the first window of the fetched log equal to the target starts at
position k, the scan returns "no_change" when that window ends at the end
of the log and the index after the window otherwise. -/
lemma logsMatchScan_found (target : List Event) (w : Nat) :
    ∀ (k : Nat) (rem : List Event) (i : Nat),
      k + w ≤ rem.length →
      (∀ j, j < k → (rem.drop j).take w ≠ target) →
      (rem.drop k).take w = target →
      logsMatchScan target w i rem =
        (if k + w = rem.length then .noChange else .idx (i + k + w)) := by
  intro k
  induction k with
  | zero =>
    intro rem i hle hfail hmatch
    cases rem with
    | nil =>
      have hw : w = 0 := by simpa using hle
      subst hw
      have ht : target = [] := by simpa using hmatch.symm
      simp [logsMatchScan, ht]
    | cons e rest =>
      have hnl : ¬ (e :: rest).length < w := by omega
      have hm : (e :: rest).take w = target := by simpa using hmatch
      rw [logsMatchScan, if_neg hnl, if_pos hm]
      by_cases he : (e :: rest).length = w
      · rw [if_pos he, if_pos (by omega)]
      · rw [if_neg he, if_neg (by omega)]
        simp
  | succ k ih =>
    intro rem i hle hfail hmatch
    cases rem with
    | nil => simp at hle
    | cons e rest =>
      have hnl : ¬ (e :: rest).length < w := by
        simp only [List.length_cons] at hle ⊢
        omega
      have h0 : ¬ ((e :: rest).take w = target) := by
        have := hfail 0 (Nat.succ_pos k)
        simpa using this
      rw [logsMatchScan, if_neg hnl, if_neg h0]
      have hrec := ih rest (i + 1)
        (by simp only [List.length_cons] at hle; omega)
        (by
          intro j hj
          have := hfail (j + 1) (Nat.succ_lt_succ hj)
          simpa [List.drop_succ_cons] using this)
        (by simpa [List.drop_succ_cons] using hmatch)
      rw [hrec]
      by_cases he : k + w = rest.length
      · rw [if_pos he, if_pos (by simp only [List.length_cons]; omega)]
      · rw [if_neg he, if_neg (by simp only [List.length_cons]; omega)]
        have : i + 1 + k + w = i + (k + 1) + w := by omega
        rw [this]

/- Claims about the snapshot delta matcher. -/

/-- Claim C1: for a non-empty snapshot and a fetched log with fewer than
`w = min(5, snapshot_length)` entries, find_new_entries returns the full
fetched log as new: logs_match returns Python False, and `events[False:]`
slices from index 0. -/
theorem find_new_entries_short_log (events snapshot : List Event)
    (hs : snapshot ≠ [])
    (hshort : events.length < min 5 snapshot.length) :
    find_new_entries events snapshot = events := by
  have hm : logs_match snapshot events (min 5 snapshot.length) = .pyFalse := by
    unfold logs_match
    rw [if_pos hshort]
  unfold find_new_entries
  rw [hm]
  exact List.drop_zero events

/-- Witness for C1: a two-entry fetched log against a three-entry
snapshot (window 3) comes back whole. -/
theorem find_new_entries_short_log_witness :
    find_new_entries [evD, evE] [evA, evB, evC] = [evD, evE] :=
  find_new_entries_short_log [evD, evE] [evA, evB, evC] (by decide) (by decide)

/-- Claim C10: with an empty snapshot the match window is
`min(5, 0) = 0`, every position matches the empty target immediately at
index 0, and the entire fetched log is returned; on an empty fetched log
the zero-width window ends at the end of the log, logs_match reports
"no_change", and the result is the empty sequence. -/
theorem find_new_entries_empty_snapshot (events : List Event) :
    find_new_entries events [] = events := by
  cases events <;> rfl

/-- Claim C7: if no length-w window of the fetched log equals the
snapshot's last w entries (and the log is at least w long), logs_match
returns None and the entire fetched log is treated as new. -/
theorem find_new_entries_no_overlap (events snapshot : List Event)
    (hs : snapshot ≠ [])
    (hlen : min 5 snapshot.length ≤ events.length)
    (hno : ∀ j, j + min 5 snapshot.length ≤ events.length →
      (events.drop j).take (min 5 snapshot.length) ≠
        snapshot.drop (snapshot.length - min 5 snapshot.length)) :
    find_new_entries events snapshot = events := by
  have hw0 : min 5 snapshot.length ≠ 0 := by
    cases snapshot with
    | nil => exact absurd rfl hs
    | cons a l => simp only [List.length_cons]; omega
  have hm : logs_match snapshot events (min 5 snapshot.length) = .pyNone := by
    unfold logs_match
    rw [if_neg (by omega), pySliceFromNeg_ne_zero snapshot _ hw0]
    exact logsMatchScan_none _ _ events 0 hno
  unfold find_new_entries
  rw [hm]

/-- Witness for C7: the fetched log [evD, evE, evD] shares no window of
length 3 with the snapshot [evA, evB, evC]. -/
theorem find_new_entries_no_overlap_witness :
    find_new_entries [evD, evE, evD] [evA, evB, evC] = [evD, evE, evD] :=
  find_new_entries_no_overlap [evD, evE, evD] [evA, evB, evC] (by decide) (by decide)
    (by
      intro j hj
      have hj0 : j = 0 := by
        have h1 : min 5 ([evA, evB, evC] : List Event).length = 3 := rfl
        have h2 : ([evD, evE, evD] : List Event).length = 3 := rfl
        omega
      subst hj0
      decide)

/-- Counterexample to claim C6 as stated: snapshot [evA] and fetched log
[evA, evB, evA] have identical last-1 tails, but the scan matches the
window [evA] first at position 0, which does not end at the end of the
log, so find_new_entries returns [evB, evA], not the empty sequence. -/
theorem find_new_entries_identical_tail_counterexample :
    find_new_entries [evA, evB, evA] [evA] ≠ [] := by decide

/-- Claim C6 (amended): when additionally the snapshot's last-w window
occurs at no earlier position of the fetched log, the first match is the
one ending exactly at the end of the fetched log, logs_match reports
"no_change" and find_new_entries returns the empty sequence. -/
theorem find_new_entries_identical_tail (events snapshot : List Event)
    (hs : snapshot ≠ [])
    (hlen : min 5 snapshot.length ≤ events.length)
    (htail : events.drop (events.length - min 5 snapshot.length) =
      snapshot.drop (snapshot.length - min 5 snapshot.length))
    (hfirst : ∀ j, j < events.length - min 5 snapshot.length →
      (events.drop j).take (min 5 snapshot.length) ≠
        snapshot.drop (snapshot.length - min 5 snapshot.length)) :
    find_new_entries events snapshot = [] := by
  have hw0 : min 5 snapshot.length ≠ 0 := by
    cases snapshot with
    | nil => exact absurd rfl hs
    | cons a l => simp only [List.length_cons]; omega
  have hm : logs_match snapshot events (min 5 snapshot.length) = .noChange := by
    unfold logs_match
    rw [if_neg (by omega), pySliceFromNeg_ne_zero snapshot _ hw0]
    have hfound := logsMatchScan_found
      (snapshot.drop (snapshot.length - min 5 snapshot.length))
      (min 5 snapshot.length)
      (events.length - min 5 snapshot.length) events 0
      (by omega) hfirst
      (by
        rw [htail]
        exact List.take_of_length_le (by rw [List.length_drop]; omega))
    rw [hfound, if_pos (by omega)]
  unfold find_new_entries
  rw [hm]

/-- Witness for C6 (amended): identical three-entry snapshot and fetched
log produce an empty delta. -/
theorem find_new_entries_identical_tail_witness :
    find_new_entries [evA, evB, evC] [evA, evB, evC] = [] :=
  find_new_entries_identical_tail [evA, evB, evC] [evA, evB, evC]
    (by decide) (by decide) (by decide)
    (fun j hj => absurd hj (Nat.not_lt_zero j))

/-- Counterexample to claim C2 as stated: with snapshot [evA, evB, evC]
and fetched log [evA, evB, evC, evD] ++ [evA, evB, evC, evD, evE] (which
is of the form [..., A, B, C, D, E]), the scan finds the window
[evA, evB, evC] first at position 0, so find_new_entries returns
[evD, evA, evB, evC, evD, evE] rather than exactly [evD, evE]. -/
theorem find_new_entries_appended_tail_counterexample :
    find_new_entries [evA, evB, evC, evD, evA, evB, evC, evD, evE]
      [evA, evB, evC] ≠ [evD, evE] := by decide

/-- Claim C2 (amended): for snapshot [a, b, c] and fetched log
pre ++ [a, b, c, d, e], where the occurrence of the window [a, b, c] just
before d, e is the earliest occurrence in the fetched log, the matched
window ends two entries before the end and find_new_entries returns
exactly [d, e]. -/
theorem find_new_entries_appended_tail (pre : List Event) (a b c d e : Event)
    (hfirst : ∀ j, j < pre.length →
      ((pre ++ [a, b, c, d, e]).drop j).take 3 ≠ [a, b, c]) :
    find_new_entries (pre ++ [a, b, c, d, e]) [a, b, c] = [d, e] := by
  have hlen : (pre ++ [a, b, c, d, e]).length = pre.length + 5 := by
    simp
  have hm : logs_match [a, b, c] (pre ++ [a, b, c, d, e])
      (min 5 ([a, b, c] : List Event).length) = .idx (pre.length + 3) := by
    show logs_match [a, b, c] (pre ++ [a, b, c, d, e]) 3 = .idx (pre.length + 3)
    unfold logs_match
    rw [if_neg (by omega)]
    have htarget : pySliceFromNeg [a, b, c] 3 = [a, b, c] := rfl
    rw [htarget]
    have hfound := logsMatchScan_found [a, b, c] 3
      pre.length (pre ++ [a, b, c, d, e]) 0
      (by omega)
      hfirst
      (by rw [List.drop_left]; rfl)
    rw [hfound, if_neg (by omega), Nat.zero_add]
  unfold find_new_entries
  rw [hm]
  show (pre ++ [a, b, c, d, e]).drop (pre.length + 3) = [d, e]
  rw [← List.drop_drop, List.drop_left]
  rfl

/-- Witness for C2 (amended): with an empty part before the snapshot tail,
find_new_entries returns exactly the two appended entries. -/
theorem find_new_entries_appended_tail_witness :
    find_new_entries ([] ++ [evA, evB, evC, evD, evE]) [evA, evB, evC] = [evD, evE] :=
  find_new_entries_appended_tail [] evA evB evC evD evE
    (fun j hj => absurd hj (Nat.not_lt_zero j))

/- Claims about snapshot persistence. -/

/-- For a positive cap n, save_snapshot keeps exactly the final n entries
(all entries when fewer than n exist): both branches of the Python
conditional reduce to dropping all but the last n. -/
lemma save_snapshot_eq_drop (events : List Event) (n : Nat) (hn : 1 ≤ n) :
    save_snapshot events n = events.drop (events.length - n) := by
  unfold save_snapshot
  by_cases h : n ≤ events.length
  · rw [if_pos h, pySliceFromNeg_ne_zero events n (by omega)]
  · rw [if_neg h]
    have h0 : events.length - n = 0 := by omega
    rw [h0, List.drop_zero]

/-- Counterexample to claim C8 as stated: with cap N = 0 the Python slice
`events[-0:]` is `events[0:]`, so save_snapshot persists the whole list
instead of the last min(0, 1) = 0 entries. -/
theorem save_snapshot_zero_cap_counterexample :
    save_snapshot [evA] 0 ≠ [] := by decide

/-- Claim C8 (amended): for every event list and snapshot size N ≥ 1,
save_snapshot persists exactly the last min(N, length) entries in their
original order, so the persisted snapshot never exceeds N entries. -/
theorem save_snapshot_last_min (events : List Event) (n : Nat) (hn : 1 ≤ n) :
    save_snapshot events n = events.drop (events.length - n) ∧
    (save_snapshot events n).length = min n events.length := by
  refine ⟨save_snapshot_eq_drop events n hn, ?_⟩
  rw [save_snapshot_eq_drop events n hn, List.length_drop]
  omega

/-- Witness for C8 (amended): a two-entry log with cap 1 persists exactly
the last entry. -/
theorem save_snapshot_last_min_witness :
    save_snapshot [evA, evB] 1 =
      ([evA, evB] : List Event).drop (([evA, evB] : List Event).length - 1) ∧
    (save_snapshot [evA, evB] 1).length = min 1 ([evA, evB] : List Event).length :=
  save_snapshot_last_min [evA, evB] 1 (by decide)

/- Claims about get_events. -/

/-- Counterexample to claim C5 as stated: when the event table parses
successfully to the empty log, the Python guard `if events:` is falsy, the
function returns immediately, and no snapshot write happens. -/
theorem get_events_empty_parse_counterexample :
    (get_events (some ([] : List Event)) [] true).2 = none := rfl

/-- Claim C5 (amended): whenever the event table parses to a non-empty
log, get_events overwrites the snapshot with the fetched log's tail (the
most recent 20 entries), regardless of the delta flag and of the delta
outcome. -/
theorem get_events_saves_snapshot (events prev : List Event) (delta : Bool)
    (h : events ≠ []) :
    (get_events (some events) prev delta).2 =
      some (events.drop (events.length - 20)) := by
  have he : events.isEmpty = false := by
    cases events with
    | nil => exact absurd rfl h
    | cons x xs => rfl
  have hsave : save_snapshot events 20 = events.drop (events.length - 20) :=
    save_snapshot_eq_drop events 20 (by omega)
  cases delta <;> simp [get_events, he, hsave]

/-- Witness for C5 (amended): a one-entry parsed log is persisted as the
snapshot (its whole content, being shorter than 20 entries). -/
theorem get_events_saves_snapshot_witness :
    (get_events (some [evA]) [] true).2 =
      some (([evA] : List Event).drop (([evA] : List Event).length - 20)) :=
  get_events_saves_snapshot [evA] [] true (by decide)

/- Helper lemmas about timestamp repair. -/

/-- Unfolding of the delta list on two leading entries. -/
lemma deltasOf_cons_cons (x y : Event) (t : List Event) :
    deltasOf (x :: y :: t) = (y.timestamp - x.timestamp) :: deltasOf (y :: t) := rfl

/-- The deltas telescope: their sum is the distance from the first to the
last entry of the group. -/
lemma deltasOf_sum (rest : List Event) :
    ∀ (g0 gl : Event), (g0 :: rest).getLast? = some gl →
      (deltasOf (g0 :: rest)).sum = gl.timestamp - g0.timestamp := by
  induction rest with
  | nil =>
    intro g0 gl h
    have hg : g0 = gl := by simpa using h
    subst hg
    simp [deltasOf]
  | cons r rs ih =>
    intro g0 gl h
    rw [deltasOf_cons_cons, List.sum_cons]
    rw [ih r gl (by simpa [List.getLast?_cons_cons] using h)]
    ring

/-- Walking the reconstruction loop over the zipped deltas shifts every
remaining entry by the same constant `cur − prev.timestamp`. -/
lemma walkRest_zip_deltas (rest : List Event) :
    ∀ (prev : Event) (cur : Int),
      walkRest cur (rest.zip (deltasOf (prev :: rest)))
        = rest.map (shiftTs (cur - prev.timestamp)) := by
  induction rest with
  | nil => intro prev cur; rfl
  | cons r rs ih =>
    intro prev cur
    show ({ r with timestamp := cur + (r.timestamp - prev.timestamp) })
        :: walkRest (cur + (r.timestamp - prev.timestamp)) (rs.zip (deltasOf (r :: rs)))
      = shiftTs (cur - prev.timestamp) r :: rs.map (shiftTs (cur - prev.timestamp))
    rw [ih r (cur + (r.timestamp - prev.timestamp))]
    have h1 : cur + (r.timestamp - prev.timestamp) - r.timestamp
        = cur - prev.timestamp := by ring
    rw [h1]
    have h2 : cur + (r.timestamp - prev.timestamp)
        = r.timestamp + (cur - prev.timestamp) := by ring
    rw [h2]
    rfl

/-- The repair of a non-empty invalid group with last entry gl, anchored to
a following valid timestamp t, is a uniform shift of every group entry by
`t − 1 − gl.timestamp` (the whole group is translated so that its last
entry lands at t − 1). -/
lemma repairGroup_eq_map (G : List Event) (gl : Event) (t : Int)
    (h : G.getLast? = some gl) :
    repairGroup G t = G.map (shiftTs (t - 1 - gl.timestamp)) := by
  cases G with
  | nil => simp at h
  | cons g0 rest =>
    show ({ g0 with timestamp := t - 1 - (deltasOf (g0 :: rest)).sum })
        :: walkRest (t - 1 - (deltasOf (g0 :: rest)).sum) (rest.zip (deltasOf (g0 :: rest)))
      = shiftTs (t - 1 - gl.timestamp) g0 :: rest.map (shiftTs (t - 1 - gl.timestamp))
    rw [walkRest_zip_deltas rest g0 (t - 1 - (deltasOf (g0 :: rest)).sum)]
    rw [deltasOf_sum rest g0 gl h]
    have h1 : t - 1 - (gl.timestamp - g0.timestamp) - g0.timestamp
        = t - 1 - gl.timestamp := by ring
    rw [h1]
    have h2 : t - 1 - (gl.timestamp - g0.timestamp)
        = g0.timestamp + (t - 1 - gl.timestamp) := by ring
    rw [h2]
    rfl

/-- Scanning a list with no epoch entries changes nothing and leaves no
pending invalid group. -/
lemma fixGo_all_valid (L : List Event) (h : ∀ e ∈ L, isEpoch e = false) :
    fixGo [] L = (L, []) := by
  induction L with
  | nil => rfl
  | cons e rest ih =>
    have hne : ¬ (isEpoch e = true) := by simp [h e (by simp)]
    rw [fixGo, if_neg hne, ih (fun x hx => h x (List.mem_cons_of_mem e hx))]
    rfl

/-- A run of valid entries at the front of the scan passes through
unchanged. -/
lemma fixGo_front_valid (P : List Event) (hP : ∀ e ∈ P, isEpoch e = false) :
    ∀ (rest : List Event),
      fixGo [] (P ++ rest) = (P ++ (fixGo [] rest).1, (fixGo [] rest).2) := by
  induction P with
  | nil => intro rest; simp
  | cons p ps ih =>
    intro rest
    have hne : ¬ (isEpoch p = true) := by simp [hP p (by simp)]
    rw [List.cons_append, fixGo, if_neg hne,
      ih (fun x hx => hP x (List.mem_cons_of_mem p hx)) rest]
    rfl

/-- A run of epoch entries is accumulated onto the pending group. -/
lemma fixGo_epoch_run (G : List Event) (hG : ∀ e ∈ G, isEpoch e = true) :
    ∀ (group rest : List Event),
      fixGo group (G ++ rest) = fixGo (group ++ G) rest := by
  induction G with
  | nil => intro group rest; simp
  | cons g gs ih =>
    intro group rest
    have hg : isEpoch g = true := hG g (by simp)
    rw [List.cons_append, fixGo, if_pos hg,
      ih (fun x hx => hG x (List.mem_cons_of_mem g hx)) (group ++ [g]) rest,
      List.append_assoc]
    rfl

/-- A uniform timestamp shift preserves the inter-entry deltas. -/
lemma deltasOf_map_shift (c : Int) : ∀ (G : List Event),
    deltasOf (G.map (shiftTs c)) = deltasOf G
  | [] => rfl
  | [_] => rfl
  | x :: y :: t => by
    have htail := deltasOf_map_shift c (y :: t)
    show ((shiftTs c y).timestamp - (shiftTs c x).timestamp)
        :: deltasOf (shiftTs c y :: t.map (shiftTs c))
      = (y.timestamp - x.timestamp) :: deltasOf (y :: t)
    rw [show deltasOf (shiftTs c y :: t.map (shiftTs c))
        = deltasOf ((y :: t).map (shiftTs c)) from rfl, htail]
    congr 1
    show y.timestamp + c - (x.timestamp + c) = y.timestamp - x.timestamp
    ring

/- Claims about timestamp repair. -/

/-- Claim C3: a single contiguous epoch-1970 group G immediately followed
by a valid entry v (with valid entries before and after) is repaired to a
uniform shift of the group: its inter-entry deltas are preserved exactly,
its last entry is anchored at v.timestamp − 1s, and its first entry lands
at v.timestamp − 1s − total_delta; nothing else in the log changes. -/
theorem fix_timestamp_single_group (P G S : List Event) (v gl : Event)
    (hP : ∀ e ∈ P, isEpoch e = false)
    (hG : ∀ e ∈ G, isEpoch e = true)
    (hlast : G.getLast? = some gl)
    (hv : isEpoch v = false)
    (hS : ∀ e ∈ S, isEpoch e = false) :
    fix_timestamp (P ++ (G ++ v :: S))
        = P ++ (G.map (shiftTs (v.timestamp - 1 - gl.timestamp)) ++ v :: S) ∧
    deltasOf (G.map (shiftTs (v.timestamp - 1 - gl.timestamp))) = deltasOf G ∧
    (G.map (shiftTs (v.timestamp - 1 - gl.timestamp))).getLast?.map
        (fun x => x.timestamp) = some (v.timestamp - 1) ∧
    (G.map (shiftTs (v.timestamp - 1 - gl.timestamp))).head?.map
        (fun x => x.timestamp)
      = some (v.timestamp - 1 - (deltasOf G).sum) := by
  have hvne : ¬ (isEpoch v = true) := by simp [hv]
  have h3 : fixGo G (v :: S) = (repairGroup G v.timestamp ++ v :: S, []) := by
    rw [fixGo, if_neg hvne, fixGo_all_valid S hS]
  have h2 : fixGo [] (G ++ v :: S) = (repairGroup G v.timestamp ++ v :: S, []) := by
    have := fixGo_epoch_run G hG [] (v :: S)
    simpa [h3] using this
  have h1 : fixGo [] (P ++ (G ++ v :: S))
      = (P ++ (repairGroup G v.timestamp ++ v :: S), []) := by
    rw [fixGo_front_valid P hP (G ++ v :: S), h2]
  refine ⟨?_, deltasOf_map_shift _ G, ?_, ?_⟩
  · unfold fix_timestamp
    rw [h1]
    show removeAll ((P ++ (repairGroup G v.timestamp ++ v :: S)) ++ []) [] = _
    rw [List.append_nil, repairGroup_eq_map G gl v.timestamp hlast]
    rfl
  · rw [List.getLast?_map, hlast]
    show some ((shiftTs (v.timestamp - 1 - gl.timestamp) gl).timestamp) = _
    show some (gl.timestamp + (v.timestamp - 1 - gl.timestamp)) = _
    congr 1
    ring
  · cases G with
    | nil => simp at hlast
    | cons g0 tl =>
      rw [List.head?_map]
      show some ((shiftTs (v.timestamp - 1 - gl.timestamp) g0).timestamp) = _
      show some (g0.timestamp + (v.timestamp - 1 - gl.timestamp)) = _
      rw [deltasOf_sum tl g0 gl hlast]
      congr 1
      ring

/-- Witness for C3: a two-entry invalid group 25 seconds apart, followed
by a valid entry at t = 10^9, is shifted so that its entries land at
10^9 − 26 and 10^9 − 1. -/
theorem fix_timestamp_single_group_witness :
    fix_timestamp ([] ++ ([evG1, evG2] ++ evV :: []))
        = [] ++ ([evG1, evG2].map (shiftTs (evV.timestamp - 1 - evG2.timestamp))
            ++ evV :: []) ∧
    deltasOf ([evG1, evG2].map (shiftTs (evV.timestamp - 1 - evG2.timestamp)))
        = deltasOf [evG1, evG2] ∧
    ([evG1, evG2].map (shiftTs (evV.timestamp - 1 - evG2.timestamp))).getLast?.map
        (fun x => x.timestamp) = some (evV.timestamp - 1) ∧
    ([evG1, evG2].map (shiftTs (evV.timestamp - 1 - evG2.timestamp))).head?.map
        (fun x => x.timestamp)
      = some (evV.timestamp - 1 - (deltasOf [evG1, evG2]).sum) :=
  fix_timestamp_single_group [] [evG1, evG2] [] evV evG2
    (by decide) (by decide) (by decide) (by decide) (by decide)

/-- Claim C9: timestamp repair is a no-op on a log without epoch entries:
the scan accumulates no invalid group and the removal loop has nothing to
remove. -/
theorem fix_timestamp_no_epoch (L : List Event)
    (h : ∀ e ∈ L, isEpoch e = false) :
    fix_timestamp L = L := by
  unfold fix_timestamp
  rw [fixGo_all_valid L h]
  show removeAll (L ++ []) [] = L
  rw [List.append_nil]
  rfl

/-- Witness for C9: a two-entry valid log is returned unchanged. -/
theorem fix_timestamp_no_epoch_witness :
    fix_timestamp [evA, evB] = [evA, evB] :=
  fix_timestamp_no_epoch [evA, evB] (by decide)

/-- Claim C4, evaluated at the failing input: the log
[⟨0, 1, 3, "x"⟩, ⟨31536000, 2, 3, "boot"⟩, ⟨31535999, 1, 3, "x"⟩] ends
with the trailing epoch entry ⟨31535999, 1, 3, "x"⟩ (1970-12-31T23:59:59Z)
never followed by a valid entry. Repair first rewrites the leading group
entry to timestamp 31536000 − 1 = 31535999, making it structurally equal
to the trailing entry; the removal loop (`events.remove`, which deletes
the first equal element) then removes the repaired non-trailing entry and
leaves the trailing epoch entry in the output — contradicting the claim
(and the source's own comment) that exactly the trailing entries are
dropped. -/
theorem fix_timestamp_trailing_drop_bug :
    fix_timestamp [⟨0, 1, 3, "x"⟩, ⟨31536000, 2, 3, "boot"⟩, ⟨31535999, 1, 3, "x"⟩]
        = [⟨31536000, 2, 3, "boot"⟩, ⟨31535999, 1, 3, "x"⟩] ∧
    isEpoch ⟨31535999, 1, 3, "x"⟩ = true := by decide
